import Mathlib

/-!
Verification of the PersonaX completion-and-tool-iteration engine.

This file shallowly embeds the core of the `personax` repository:

* the message / tool-call ledger (`personax/types/compat/message.py`,
  `personax/types/compat/tool_calls.py`),
* the atomic and streaming completion loops
  (`personax/completion/openai.py`, `_sync_complete`, `_stream_complete`,
  `_build_msgs`),
* the lazy async stream (`personax/types/stream.py`),
* tool schema derivation (`personax/tools/__init__.py`),
* message construction and validation (`personax/types/compat/message.py`).

Modelling conventions:

* Python machine effects are made explicit: fallible code returns `Except`,
  mutation becomes state passing.
* `json.loads` on tool-call argument text is an external library function; it
  is modelled by an abstract parameter `jsonLoads : String → Option α`
  (`none` models a raised `json.JSONDecodeError`).  Likewise a tool callable
  is modelled as a function `α → ToolOutcome`, where the `toolCallError`
  outcome models the tool raising the domain-specific `ToolCallError`
  exception caught by the engine (awaiting of async results is collapsed).
* `int(time.time())` is irrelevant to every claim and is modelled as `0`.
-/

set_option autoImplicit false

namespace PersonaX

/-! ## Ledger data model (`personax/types/compat/*.py`) -/

/-- Roles of a plain chat message (`Message.role`). -/
inductive Role where
  | system
  | user
  | assistant
  deriving DecidableEq, Repr

/-- Model of `personax.types.compat.message.Message`: a plain conversational turn. -/
structure Message where
  role : Role
  content : String
  deriving DecidableEq, Repr

/-- Model of `personax.types.compat.tool_calls.Function`: name plus raw JSON argument
text of a function call requested by the model. -/
structure Func where
  name : String
  arguments : String
  deriving DecidableEq, Repr

/-- Model of `personax.types.compat.tool_calls.ToolCallsParams`: a tool-call request
entry of the ledger. -/
structure ToolCallsParams where
  call_id : String
  function : Func
  deriving DecidableEq, Repr

/-- The `content` of a tool result: `str | list[str]` in the source. -/
inductive ToolContent where
  | text (s : String)
  | texts (l : List String)
  deriving DecidableEq, Repr

/-- Model of `personax.types.compat.tool_calls.ToolCalls`: a tool-call result entry of
the ledger. -/
structure ToolCalls where
  call_id : String
  content : ToolContent
  deriving DecidableEq, Repr

/-- One entry of the conversation ledger: the lists named `msgs` /
`msg_list` in `_sync_complete` / `_stream_complete` hold
`Message | ToolCalls | ToolCallsParams` values. -/
inductive LedgerEntry where
  | msg (m : Message)
  | toolParams (p : ToolCallsParams)
  | toolResult (r : ToolCalls)
  deriving DecidableEq, Repr

/-! ## Completion result types (`personax/types/completion.py`, `usage.py`) -/

/-- Raw OpenAI finish reasons (argument of `map_finish_reason`). -/
inductive RawFinishReason where
  | stop
  | length
  | tool_calls
  | content_filter
  | function_call
  deriving DecidableEq, Repr

/-- Normalized finish reasons. -/
inductive FinishReason where
  | stop
  | length
  | content_filter
  deriving DecidableEq, Repr

/-- Model of `map_finish_reason` from `personax/completion/openai.py`: `tool_calls`,
`function_call` and `None` are all mapped to `stop`. -/
def mapFinishReason : Option RawFinishReason → FinishReason
  | some .stop => .stop
  | some .length => .length
  | some .content_filter => .content_filter
  | _ => .stop

/-- Model of `personax.types.usage.Usage`. -/
structure Usage where
  completion_tokens : Nat
  prompt_tokens : Nat
  total_tokens : Nat
  deriving DecidableEq, Repr

/-- Model of `personax.types.completion.CompletionMessage`. -/
structure CompletionMessage where
  content : Option String
  refusal : Option String
  reason : Option String
  deriving DecidableEq, Repr

/-- Model of `personax.types.completion.Completion`. -/
structure Completion where
  id : String
  message : CompletionMessage
  finish_reason : FinishReason
  created : Nat
  model : String
  usage : Option Usage
  deriving DecidableEq, Repr

/-- Model of `personax.types.completion_chunk.CompletionChunkDelta`. -/
structure CompletionChunkDelta where
  content : Option String := none
  refusal : Option String := none
  reason : Option String := none
  deriving DecidableEq, Repr

/-- Model of `personax.types.completion_chunk.CompletionChunk`. -/
structure CompletionChunk where
  id : String
  delta : CompletionChunkDelta
  finish_reason : Option FinishReason
  created : Nat
  model : String
  usage : Option Usage
  deriving DecidableEq, Repr

/-! ## Provider turns and the tool environment -/

/-- One function tool call of a non-streamed provider turn
(`choice.message.tool_calls[i]`; every modelled call is a function call,
the `isinstance` guard that skips non-function calls is not modelled). -/
structure ProviderToolCall where
  id : String
  name : String
  arguments : String
  deriving DecidableEq, Repr

/-- One non-streamed provider turn: the fields of
`completion.choices[0].message` (plus `completion.id` and usage) that
`_sync_complete` reads.  `tool_calls = []` models both `None` and an empty
list (both falsy in `if choice.message.tool_calls:`). -/
structure ProviderTurn where
  id : String
  content : Option String
  refusal : Option String
  tool_calls : List ProviderToolCall
  finish_reason : Option RawFinishReason
  usage : Option Usage
  deriving DecidableEq, Repr

/-- The value a tool's body produces, as discriminated by the engine's
`isinstance` cascade: a `str` passes through, a `list` is element-wise
JSON-encoded (string elements pass through, the `.inr` constructor carries
the `json.dumps` image of a non-string element), and any other value is
carried as its whole `json.dumps` image. -/
inductive ToolReturn where
  | asStr (s : String)
  | asList (items : List (String ⊕ String))
  | asOther (dump : String)
  deriving DecidableEq, Repr

/-- Outcome of invoking a tool: a returned value, or a raised
`ToolCallError` (the only exception the engine catches). -/
inductive ToolOutcome where
  | ok (r : ToolReturn)
  | toolCallError
  deriving DecidableEq, Repr

/-- The engine's external execution environment, abstracting the Python
runtime: `tools` is the `tools_map` lookup (built from
`tool.__function_name__`), and `jsonLoads` models `json.loads` on raw
argument text — `none` models a raised `json.JSONDecodeError`.  `α` is the
type of parsed argument dictionaries. -/
structure ToolCallEnv (α : Type) where
  tools : String → Option (α → ToolOutcome)
  jsonLoads : String → Option α

/-- Fatal errors of a completion call in this model: a JSON decode failure
escaping the tool loop, or exhaustion of the scripted provider turns (the
model drives the loop from a finite script of provider responses; running
out of script stands for a further, unscripted provider round trip). -/
inductive EngineError where
  | jsonDecode (arguments : String)
  | scriptExhausted
  deriving DecidableEq, Repr

/-- Model of the `result_str` computation of `_sync_complete` (lines 442-450): string
results pass through, lists are element-wise JSON-encoded, anything else is
JSON-encoded whole. -/
def stringifyResult : ToolReturn → ToolContent
  | .asStr s => .text s
  | .asList items => .texts (items.map (fun x => match x with | .inl s => s | .inr d => d))
  | .asOther dump => .text dump

variable {α : Type}

/-- The ledger entry appended for a tool-call request (`tool_params =
ToolCallsParams(call_id=..., function=Function(name=..., arguments=...))`). -/
def paramsEntry (c : ProviderToolCall) : LedgerEntry :=
  .toolParams ⟨c.id, ⟨c.name, c.arguments⟩⟩

/-- Processing of one tool call inside `_sync_complete` (lines 401-460):
append the request entry; if the tool is available, parse the arguments
(a parse failure propagates — `json.loads` is outside the `try`), invoke it
(catching only `ToolCallError`), stringify and append the result; if the
tool is unavailable, append the fixed placeholder result.  Returns the
entries appended for this call. -/
def runToolCall (env : ToolCallEnv α) (c : ProviderToolCall) :
    Except EngineError (List LedgerEntry) :=
  match env.tools c.name with
  | some tool =>
    match env.jsonLoads c.arguments with
    | none => .error (.jsonDecode c.arguments)
    | some args =>
      let result : ToolReturn :=
        match tool args with
        | .ok r => r
        | .toolCallError => .asStr ("Error executing tool " ++ c.name)
      .ok [paramsEntry c, .toolResult ⟨c.id, stringifyResult result⟩]
  | none =>
    .ok [paramsEntry c, .toolResult ⟨c.id, .text ("Tool " ++ c.name ++ " not available")⟩]

/-- The `for` loop over `choice.message.tool_calls`: entries appended for
all calls of a turn, in order; the first fatal error aborts the call. -/
def runToolCalls (env : ToolCallEnv α) : List ProviderToolCall →
    Except EngineError (List LedgerEntry)
  | [] => .ok []
  | c :: cs => do
    let es ← runToolCall env c
    let rest ← runToolCalls env cs
    .ok (es ++ rest)

/-- Result of the atomic loop: the final ledger (`msgs`), the number of
request/response round trips (`iteration`), and the final completion. -/
structure SyncOutcome where
  ledger : List LedgerEntry
  iterations : Nat
  completion : Completion
  deriving DecidableEq, Repr

/-- The assistant message appended for a provider turn
(`Message(role="assistant", content=choice.message.content or "")`). -/
def assistantEntry (turn : ProviderTurn) : LedgerEntry :=
  .msg ⟨.assistant, turn.content.getD ""⟩

/-- The `while True:` loop of `_sync_complete`: per iteration, append the
assistant message; with tool calls present, process them and loop, else
build the final `Completion`.  The provider transport is scripted by the
list of turns. -/
def syncCompleteLoop (env : ToolCallEnv α) (chatcmplId : Option String)
    (model : String) :
    List LedgerEntry → Nat → List ProviderTurn → Except EngineError SyncOutcome
  | _, _, [] => .error .scriptExhausted
  | msgs, iteration, turn :: rest =>
    let iteration := iteration + 1
    let msgs := msgs ++ [assistantEntry turn]
    if turn.tool_calls.isEmpty then
      .ok
        { ledger := msgs
          iterations := iteration
          completion :=
            { id := chatcmplId.getD turn.id
              message :=
                { content := turn.content, refusal := turn.refusal, reason := none }
              finish_reason := mapFinishReason turn.finish_reason
              created := 0
              model := model
              usage := turn.usage } }
    else do
      let entries ← runToolCalls env turn.tool_calls
      syncCompleteLoop env chatcmplId model (msgs ++ entries) iteration rest

/-- Model of `OpenAICompletion._sync_complete`, starting from the caller-supplied
ledger with the iteration counter at `0`. -/
def syncComplete (env : ToolCallEnv α) (chatcmplId : Option String)
    (model : String) (msgs : List LedgerEntry) (turns : List ProviderTurn) :
    Except EngineError SyncOutcome :=
  syncCompleteLoop env chatcmplId model msgs 0 turns

/-! ## Streaming: fragments and tool-call reassembly
(`_stream_complete`, lines 497-753) -/

/-- The `function` field of one streamed tool-call delta
(`delta.tool_calls[j].function`, possibly `None`). -/
structure FuncDelta where
  name : Option String
  arguments : Option String
  deriving DecidableEq, Repr

/-- One streamed tool-call fragment (`delta.tool_calls[j]`): a positional
index, an optional id, and optional function name / arguments deltas. -/
structure FragToolCallDelta where
  index : Nat
  id : Option String
  function : Option FuncDelta
  deriving DecidableEq, Repr

/-- The `delta` of a streamed choice; `tool_calls = []` models both `None`
and an empty list. -/
structure FragDelta where
  content : Option String
  tool_calls : List FragToolCallDelta
  deriving DecidableEq, Repr

/-- Model of `chunk.choices[0]` of a streamed response chunk. -/
structure FragChoice where
  delta : FragDelta
  finish_reason : Option RawFinishReason
  deriving DecidableEq, Repr

/-- One streamed provider chunk as read by `_stream_complete`: id, an
optional first choice (`chunk.choices` may be empty) and usage. -/
structure ProviderFragment where
  id : String
  choice : Option FragChoice
  usage : Option Usage
  deriving DecidableEq, Repr

/-- One entry of `tool_calls_buffer`: accumulated id, function name and
arguments text for one positional index. -/
structure ToolCallBuffer where
  id : String
  name : String
  arguments : String
  deriving DecidableEq, Repr

/-- The `if tool_call.function:` block (lines 647-655): concatenate a
non-empty name delta and a non-empty arguments delta onto the buffer
(`if tool_call.function.name:` / `.arguments:` are truthiness tests, so
`None` and `""` are both skipped). -/
def bufUpdateFields (b : ToolCallBuffer) (d : FragToolCallDelta) : ToolCallBuffer :=
  match d.function with
  | none => b
  | some f =>
    let b :=
      match f.name with
      | some n => if n = "" then b else { b with name := b.name ++ n }
      | none => b
    match f.arguments with
    | some a => if a = "" then b else { b with arguments := b.arguments ++ a }
    | none => b

/-- Model of the `idx in tool_calls_buffer` lookup; the buffer is an association list in
first-seen order, matching Python dict insertion order. -/
def lookupIdx : List (Nat × ToolCallBuffer) → Nat → Option ToolCallBuffer
  | [], _ => none
  | (j, b) :: tl, i => if j = i then some b else lookupIdx tl i

/-- In-place update `tool_calls_buffer[idx] = v` for an existing key. -/
def setIdx : List (Nat × ToolCallBuffer) → Nat → ToolCallBuffer →
    List (Nat × ToolCallBuffer)
  | [], _, _ => []
  | (j, b) :: tl, i, v => if j = i then (j, v) :: tl else (j, b) :: setIdx tl i v

/-- Processing of one streamed tool-call delta (lines 628-655): on first
sight of an index, create a buffer entry whose id is `tool_call.id or ""`
(later id deltas are ignored); then concatenate the function deltas. -/
def updateBuffer (buf : List (Nat × ToolCallBuffer)) (d : FragToolCallDelta) :
    List (Nat × ToolCallBuffer) :=
  match lookupIdx buf d.index with
  | none => buf ++ [(d.index, bufUpdateFields ⟨d.id.getD "", "", ""⟩ d)]
  | some b => setIdx buf d.index (bufUpdateFields b d)

/-- Reassembly of a turn's tool-call deltas into the buffer, in arrival
order (the accumulation performed across the `async for` loop). -/
def assembleToolCalls (ds : List FragToolCallDelta) : List (Nat × ToolCallBuffer) :=
  ds.foldl updateBuffer []

/-- Mutable state of one streamed turn: chunks yielded so far
(`yield` statements), `content_buffer`, `tool_calls_buffer` and
`has_tool_calls`. -/
structure TurnAccum where
  chunks : List CompletionChunk
  contentBuffer : String
  buffer : List (Nat × ToolCallBuffer)
  hasToolCalls : Bool
  deriving DecidableEq, Repr

/-- The empty per-turn state (lines 572-574). -/
def initAccum : TurnAccum := ⟨[], "", [], false⟩

/-- The `async for chunk in completion:` body (lines 579-675): skip chunks
with no choice; surface a truthy content delta as a chunk and grow
`content_buffer`; fold tool-call deltas into the buffer; on a finish
reason, yield a terminal chunk with empty delta and stop (`break`). -/
def processFragments (chatcmplId : Option String) (model : String)
    (acc : TurnAccum) : List ProviderFragment → TurnAccum
  | [] => acc
  | f :: fs =>
    match f.choice with
    | none => processFragments chatcmplId model acc fs
    | some ch =>
      let acc :=
        match ch.delta.content with
        | some c =>
          if c = "" then acc
          else
            { acc with
              contentBuffer := acc.contentBuffer ++ c
              chunks := acc.chunks ++
                [{ id := chatcmplId.getD f.id
                   delta := { content := some c }
                   finish_reason := ch.finish_reason.map (fun r => mapFinishReason (some r))
                   created := 0
                   model := model
                   usage := f.usage }] }
        | none => acc
      let acc :=
        if ch.delta.tool_calls.isEmpty then acc
        else
          { acc with
            hasToolCalls := true
            buffer := ch.delta.tool_calls.foldl updateBuffer acc.buffer }
      match ch.finish_reason with
      | some r =>
        { acc with
          chunks := acc.chunks ++
            [{ id := chatcmplId.getD f.id
               delta := {}
               finish_reason := some (mapFinishReason (some r))
               created := 0
               model := model
               usage := f.usage }] }
      | none => processFragments chatcmplId model acc fs

/-- Processing of one buffered tool call after a streamed turn
(lines 690-742): append the request entry built from the buffer; if the
tool is available, parse the accumulated argument text (a parse failure
propagates — `json.loads` is outside the `try`), invoke catching only
`ToolCallError`, stringify and append the result; else append the
placeholder result. -/
def streamBufferedCall (env : ToolCallEnv α) (entry : Nat × ToolCallBuffer) :
    Except EngineError (List LedgerEntry) :=
  let b := entry.2
  match env.tools b.name with
  | some tool =>
    match env.jsonLoads b.arguments with
    | none => .error (.jsonDecode b.arguments)
    | some args =>
      let result : ToolReturn :=
        match tool args with
        | .ok r => r
        | .toolCallError => .asStr ("Error executing tool " ++ b.name)
      .ok [.toolParams ⟨b.id, ⟨b.name, b.arguments⟩⟩,
           .toolResult ⟨b.id, stringifyResult result⟩]
  | none =>
    .ok [.toolParams ⟨b.id, ⟨b.name, b.arguments⟩⟩,
         .toolResult ⟨b.id, .text ("Tool " ++ b.name ++ " not available")⟩]

/-- The `for idx, tool_call_data in tool_calls_buffer.items():` loop. -/
def streamBufferedCalls (env : ToolCallEnv α) :
    List (Nat × ToolCallBuffer) → Except EngineError (List LedgerEntry)
  | [] => .ok []
  | e :: es => do
    let xs ← streamBufferedCall env e
    let rest ← streamBufferedCalls env es
    .ok (xs ++ rest)

/-- The `while True:` loop of the `_stream_gen` generator: per iteration,
process one scripted turn's fragments, append the assistant message built
from `content_buffer`, and either execute the buffered tool calls and loop
or finish.  Returns all chunks yielded across iterations and the final
ledger; a raised exception mid-generator is modelled by `Except.error`. -/
def streamCompleteLoop (env : ToolCallEnv α) (chatcmplId : Option String)
    (model : String) :
    List LedgerEntry → List (List ProviderFragment) →
    Except EngineError (List CompletionChunk × List LedgerEntry)
  | _, [] => .error .scriptExhausted
  | msgs, frags :: rest =>
    let acc := processFragments chatcmplId model initAccum frags
    let msgs := msgs ++ [.msg ⟨.assistant, acc.contentBuffer⟩]
    if acc.hasToolCalls && !acc.buffer.isEmpty then do
      let entries ← streamBufferedCalls env acc.buffer
      let out ← streamCompleteLoop env chatcmplId model (msgs ++ entries) rest
      .ok (acc.chunks ++ out.1, out.2)
    else
      .ok (acc.chunks, msgs)

/-! ## Wire message serialization (`OpenAICompletion._build_msgs`) -/

/-- One wire tool-call record
(`ChatCompletionMessageFunctionToolCallParam`, `type="function"`). -/
structure WireToolCall where
  id : String
  name : String
  arguments : String
  deriving DecidableEq, Repr

/-- One OpenAI wire message as built by `_build_msgs`.  An assistant wire
message's `content` is `none` when the `content` key is absent (the
assistant message freshly opened for a tool call carries no text content). -/
inductive WireMsg where
  | system (content : String)
  | user (content : String)
  | assistant (content : Option String) (tool_calls : List WireToolCall)
  | tool (content : String) (tool_call_id : String)
  deriving DecidableEq, Repr

/-- The wire record built from a ledger `ToolCallsParams` entry. -/
def wireCallOf (p : ToolCallsParams) : WireToolCall :=
  ⟨p.call_id, p.function.name, p.function.arguments⟩

/-- Python `str()` of a tool result content: a `str` is itself, a
`list[str]` renders as its `repr` (bracketed, comma-separated,
single-quoted elements; quoting is modelled with the plain quote character,
escaping inside elements is not modelled). -/
def strOfContent : ToolContent → String
  | .text s => s
  | .texts l =>
    let q := String.singleton (Char.ofNat 39)
    "[" ++ String.intercalate ", " (l.map (fun s => q ++ s ++ q)) ++ "]"

/-- One iteration of the `for` loop of `_build_msgs`: a `Message` maps by
role; a `ToolCallsParams` appends its wire record to the last built message
if that one has assistant role, else opens a new assistant wire message
holding only the record; a `ToolCalls` becomes a tool-role wire message
tagged with its call id. -/
def buildStep (msgs : List WireMsg) (e : LedgerEntry) : List WireMsg :=
  match e with
  | .msg m =>
    match m.role with
    | .system => msgs ++ [.system m.content]
    | .user => msgs ++ [.user m.content]
    | .assistant => msgs ++ [.assistant (some m.content) []]
  | .toolParams p =>
    match msgs.getLast? with
    | some (.assistant c tcs) => msgs.dropLast ++ [.assistant c (tcs ++ [wireCallOf p])]
    | _ => msgs ++ [.assistant none [wireCallOf p]]
  | .toolResult r =>
    msgs ++ [.tool (strOfContent r.content) r.call_id]

/-- Model of `OpenAICompletion._build_msgs`. -/
def buildMsgs (entries : List LedgerEntry) : List WireMsg :=
  entries.foldl buildStep []

/-! ## Lazy async stream (`personax/types/stream.py`, `AsyncStream`) -/

/-- State of an `AsyncStream` instance over a pure producer.  The producer
(`_source`) is modelled as the list of items it has yet to yield; producers
that raise are out of scope here (the `_error` slot stays `None`), so the
`try/except` of `__aiter__` is not modelled.  `source_runs` is not a slot of
the Python object: it instruments the model with the number of times the
underlying producer was iterated, standing for the side-effect counter of a
side-effecting producer. -/
structure AsyncStream (V T : Type) where
  source : List V
  mapper : V → T
  is_consumed : Bool
  items : List T
  completed : Bool
  source_runs : Nat

/-- Model of `AsyncStream.__init__` (a `None` mapper is the identity cast). -/
def mkAsyncStream {V T : Type} (source : List V) (mapper : V → T) : AsyncStream V T :=
  ⟨source, mapper, false, [], false, 0⟩

/-- The number of items a consumer pulls before abandoning the iteration:
`none` is a full iteration (the `async for` runs to the end), `some n`
abandons after `n` items. -/
def takeDemand {T : Type} (demand : Option Nat) (l : List T) : List T :=
  match demand with
  | none => l
  | some n => l.take n

/-- One run of `AsyncStream.__aiter__` under a consumer demand: if
`_is_consumed`, replay the cached `_items` without touching the producer;
else mark consumed, pull the demanded items from the producer, map and
cache each, and yield them (`finally: self._completed = True` runs when the
generator is closed). -/
def aiter {V T : Type} (s : AsyncStream V T) (demand : Option Nat) :
    List T × AsyncStream V T :=
  if s.is_consumed then
    (takeDemand demand s.items, s)
  else
    let raw := takeDemand demand s.source
    let newItems := raw.map s.mapper
    (newItems,
     { s with
       is_consumed := true
       items := s.items ++ newItems
       source := s.source.drop (match demand with
         | none => s.source.length
         | some n => n)
       completed := true
       source_runs := s.source_runs + 1 })

/-! ## Tool schema derivation (`personax/tools/__init__.py`) -/

/-- A JSON value (enum members, defaults, examples).  Floats are carried by
their textual representation. -/
inductive JsonValue where
  | str (s : String)
  | int (n : Int)
  | bool (b : Bool)
  | number (repr : String)
  | null
  deriving DecidableEq, Repr

/-- The six JSON Schema type names. -/
inductive JsonSchemaType where
  | string
  | integer
  | number
  | boolean
  | array
  | object
  deriving DecidableEq, Repr

/-- A Python literal occurring in a `Literal[...]` annotation.  Note that
in Python `bool` is a subclass of `int`, so `isinstance(True, int)` holds. -/
inductive PyLit where
  | str (v : String)
  | int (v : Int)
  | bool (v : Bool)
  | float (repr : String)
  deriving DecidableEq, Repr

/-- A Python type annotation as inspected by `_get_json_schema_type` and
friends.  `literalOf` is non-empty by construction (Python's `Literal`
always has at least one argument; the source reads `args[0]` unguarded). -/
inductive PyType where
  | pyStr
  | pyInt
  | pyFloat
  | pyBool
  | pyDict
  | pyList
  | pyNone
  | listOf (elem : PyType)
  | dictOf (key value : PyType)
  | unionOf (args : List PyType)
  | literalOf (first : PyLit) (rest : List PyLit)
  | otherType (name : String)

/-- Model of the `arg is type(None)` test. -/
def PyType.isNoneType : PyType → Bool
  | .pyNone => true
  | _ => false

/-- Model of `_get_json_schema_type`: unions resolve to the first non-`None`
alternative (default `str`); list/dict annotations map to array/object; a
`Literal` dispatches on its first argument's runtime type (the
`isinstance(first_arg, int)` branch captures `bool` values because `bool`
is a subclass of `int`, so the later `bool` branch is dead); anything else
goes through the type table, defaulting to `"string"`. -/
def getJsonSchemaType : PyType → JsonSchemaType
  | .unionOf args =>
    match h : args.filter (fun a => !a.isNoneType) with
    | [] => .string
    | a :: _ =>
      have ha : a ∈ args := (List.mem_filter.mp (h ▸ List.mem_cons_self a _)).1
      have : sizeOf a < sizeOf (PyType.unionOf args) := by
        have h1 := List.sizeOf_lt_of_mem ha
        have h2 : sizeOf (PyType.unionOf args) = 1 + sizeOf args := by simp
        omega
      getJsonSchemaType a
  | .listOf _ => .array
  | .pyList => .array
  | .dictOf _ _ => .object
  | .pyDict => .object
  | .literalOf first _ =>
    match first with
    | .str _ => .string
    | .int _ => .integer
    | .bool _ => .integer
    | .float _ => .number
  | .pyStr => .string
  | .pyInt => .integer
  | .pyFloat => .number
  | .pyBool => .boolean
  | .pyNone => .string
  | .otherType _ => .string
termination_by t => sizeOf t

/-- The runtime value of a literal, as a JSON value. -/
def litToJson : PyLit → JsonValue
  | .str v => .str v
  | .int v => .int v
  | .bool v => .bool v
  | .float r => .number r

/-- Model of `_get_literal_enum_values`: `list(args)` of a `Literal`, else `None`. -/
def getLiteralEnumValues : PyType → Option (List JsonValue)
  | .literalOf first rest => some ((first :: rest).map litToJson)
  | _ => none

/-- Model of `_get_array_items_schema`: for `list[T]` the items schema
`{"type": <json type of T>}`, else `None`. -/
def getArrayItemsSchema : PyType → Option JsonSchemaType
  | .listOf e => some (getJsonSchemaType e)
  | _ => none

/-- The `Property` descriptor (`personax.tools.Property`): explicit
per-parameter overrides attached via `Annotated`. -/
structure PropertyDesc where
  description : Option String := none
  enums : Option (List JsonValue) := none
  minimum : Option JsonValue := none
  maximum : Option JsonValue := none
  min_length : Option Int := none
  max_length : Option Int := none
  pattern : Option String := none
  format : Option String := none
  default : Option JsonValue := none
  examples : Option (List JsonValue) := none
  min_items : Option Int := none
  max_items : Option Int := none
  unique_items : Option Bool := none
  extra : List (String × JsonValue) := []
  deriving DecidableEq, Repr

/-- One metadata item of an `Annotated[...]` annotation. -/
inductive AnnotMeta where
  | prop (p : PropertyDesc)
  | otherMeta
  deriving DecidableEq, Repr

/-- A parameter annotation: either a bare type or `Annotated[type, ...]`. -/
inductive PyAnnot where
  | plain (ty : PyType)
  | withMeta (ty : PyType) (metas : List AnnotMeta)

/-- Model of `_extract_property_from_annotation`: the underlying type and the first
`Property` among the metadata, if any. -/
def extractProperty : PyAnnot → PyType × Option PropertyDesc
  | .plain ty => (ty, none)
  | .withMeta ty metas =>
    (ty,
     match metas.find? (fun m => match m with | .prop _ => true | .otherMeta => false) with
     | some (.prop p) => some p
     | _ => none)

/-- Model of `PropertySchema` (`personax.tools.PropertySchema`), with the extra
attributes set by `setattr` collected in `extra`. -/
structure PropertySchema where
  type : JsonSchemaType
  description : Option String := none
  enum : Option (List JsonValue) := none
  items : Option JsonSchemaType := none
  minimum : Option JsonValue := none
  maximum : Option JsonValue := none
  minLength : Option Int := none
  maxLength : Option Int := none
  pattern : Option String := none
  format : Option String := none
  default : Option JsonValue := none
  examples : Option (List JsonValue) := none
  minItems : Option Int := none
  maxItems : Option Int := none
  uniqueItems : Option Bool := none
  extra : List (String × JsonValue) := []
  deriving DecidableEq, Repr

/-- The per-parameter body of `BaseTool.schema` (lines 569-602): derive the
JSON type, take `enum` from a truthy `Property.enums` override else from
the `Literal` values, derive `items`, copy the remaining `Property` fields,
and attach the extra attributes. -/
def buildPropertySchema (annot : PyAnnot) : PropertySchema :=
  let (actualType, propDesc) := extractProperty annot
  let base : PropertySchema :=
    { type := getJsonSchemaType actualType
      description := propDesc.bind (fun p => p.description)
      enum :=
        match propDesc with
        | some p =>
          match p.enums with
          | some es => if es.isEmpty then getLiteralEnumValues actualType else some es
          | none => getLiteralEnumValues actualType
        | none => getLiteralEnumValues actualType
      items := getArrayItemsSchema actualType
      minimum := propDesc.bind (fun p => p.minimum)
      maximum := propDesc.bind (fun p => p.maximum)
      minLength := propDesc.bind (fun p => p.min_length)
      maxLength := propDesc.bind (fun p => p.max_length)
      pattern := propDesc.bind (fun p => p.pattern)
      format := propDesc.bind (fun p => p.format)
      default := propDesc.bind (fun p => p.default)
      examples := propDesc.bind (fun p => p.examples)
      minItems := propDesc.bind (fun p => p.min_items)
      maxItems := propDesc.bind (fun p => p.max_items)
      uniqueItems := propDesc.bind (fun p => p.unique_items) }
  match propDesc with
  | some p => { base with extra := p.extra }
  | none => base

/-- The rendered value of a `PropertySchema` field in `model_dump`. -/
inductive DumpValue where
  | tyName (t : JsonSchemaType)
  | str (s : String)
  | intVal (n : Int)
  | boolVal (b : Bool)
  | jsonList (l : List JsonValue)
  | json (v : JsonValue)
  | itemsObj (t : JsonSchemaType)
  deriving DecidableEq, Repr

/-- Model of `model_dump(exclude_none=True)` of a `PropertySchema`: the fields in
declaration order, skipping every `None`-valued one, then the extras. -/
def dumpPropertySchema (s : PropertySchema) : List (String × DumpValue) :=
  [("type", DumpValue.tyName s.type)]
  ++ (match s.description with | some d => [("description", DumpValue.str d)] | none => [])
  ++ (match s.enum with | some es => [("enum", DumpValue.jsonList es)] | none => [])
  ++ (match s.items with | some it => [("items", DumpValue.itemsObj it)] | none => [])
  ++ (match s.minimum with | some v => [("minimum", DumpValue.json v)] | none => [])
  ++ (match s.maximum with | some v => [("maximum", DumpValue.json v)] | none => [])
  ++ (match s.minLength with | some v => [("minLength", DumpValue.intVal v)] | none => [])
  ++ (match s.maxLength with | some v => [("maxLength", DumpValue.intVal v)] | none => [])
  ++ (match s.pattern with | some v => [("pattern", DumpValue.str v)] | none => [])
  ++ (match s.format with | some v => [("format", DumpValue.str v)] | none => [])
  ++ (match s.default with | some v => [("default", DumpValue.json v)] | none => [])
  ++ (match s.examples with | some v => [("examples", DumpValue.jsonList v)] | none => [])
  ++ (match s.minItems with | some v => [("minItems", DumpValue.intVal v)] | none => [])
  ++ (match s.maxItems with | some v => [("maxItems", DumpValue.intVal v)] | none => [])
  ++ (match s.uniqueItems with | some v => [("uniqueItems", DumpValue.boolVal v)] | none => [])
  ++ (s.extra.map (fun kv => (kv.1, DumpValue.json kv.2)))

/-- One parameter of a tool's `__call__` signature: its name, annotation
and declared default (`none` models `inspect.Parameter.empty`). -/
structure ToolParam where
  name : String
  annot : PyAnnot
  defaultVal : Option JsonValue

/-- The parameter loop of `BaseTool.schema`: skip `self`, build each
parameter's `PropertySchema`, and mark parameters without a default as
required. -/
def buildParamSchemas : List ToolParam →
    List (String × PropertySchema) × List String
  | [] => ([], [])
  | p :: ps =>
    if p.name = "self" then buildParamSchemas ps
    else
      let (props, req) := buildParamSchemas ps
      ((p.name, buildPropertySchema p.annot) :: props,
       if p.defaultVal.isNone then p.name :: req else req)

/-! ## Message construction and validation
(`personax/types/compat/message.py`) -/

/-- Model of `personax.types.message.Message` (the raw caller-facing message):
`content: str | None` is modelled as `String` (image-only `None`-content
messages are out of scope); the optional image bytes are retained to show
`from_raws` drops them. -/
structure RawMsg where
  role : Role
  content : String
  image : Option (List UInt8)
  deriving DecidableEq, Repr

/-- The loop of `Messages.validate_messages` after the first message:
`prev` is the previous role; a later `system` is rejected, equal
consecutive roles are rejected, and at the end the last role must be
`user`.  (The source's `curr.role not in ("user", "assistant")` check can
never fire: the role literal type has exactly three values and `system`
was already rejected.) -/
def validateRest (prev : Role) : List Message → Except String Unit
  | [] =>
    if prev = .user then .ok ()
    else .error "Last message must be from 'user'"
  | curr :: rest =>
    if curr.role = .system then .error "Only the first message can be 'system'"
    else if prev = curr.role then
      .error "Messages must alternate between 'user' and 'assistant'"
    else validateRest curr.role rest

/-- Model of `Messages.validate_messages`: non-empty, first role `system`, then the
alternation loop. -/
def validateMessages : List Message → Except String Unit
  | [] => .error "Messages cannot be empty"
  | first :: rest =>
    if first.role = .system then validateRest first.role rest
    else .error "First message must be from 'system'"

/-- The validated construction path of `Messages` (pydantic `__init__` runs
`validate_messages` and rejects invalid sequences). -/
def mkMessages (msgs : List Message) : Except String (List Message) :=
  (validateMessages msgs).map (fun _ => msgs)

/-- Model of `Messages.from_raws`: via `model_construct`, which bypasses every
pydantic validator — a system message carrying the prompt followed by the
raw messages converted in order (role and content preserved, image
dropped), with no structural check. -/
def fromRaws (raws : List RawMsg) (sysPrompt : String) : List Message :=
  ⟨.system, sysPrompt⟩ :: raws.map (fun m => ⟨m.role, m.content⟩)

/-! ## Derived notions used by the statements -/

/-- A tool call whose processing cannot raise: either its tool is
unavailable (placeholder path), or the tool is available and its argument
text parses.  (Tool bodies themselves are modelled as total up to
`ToolCallError`, which the engine catches.) -/
def BenignCall (env : ToolCallEnv α) (c : ProviderToolCall) : Prop :=
  (env.tools c.name).isNone = true ∨
    ((env.tools c.name).isSome = true ∧ (env.jsonLoads c.arguments).isSome = true)

/-- A tool call whose processing raises: its tool is available but the
argument text does not parse as JSON. -/
def FatalCall (env : ToolCallEnv α) (c : ProviderToolCall) : Prop :=
  (env.tools c.name).isSome = true ∧ env.jsonLoads c.arguments = none

instance (env : ToolCallEnv α) (c : ProviderToolCall) :
    Decidable (BenignCall env c) :=
  inferInstanceAs (Decidable (_ ∨ _ ∧ _))

instance [DecidableEq α] (env : ToolCallEnv α) (c : ProviderToolCall) :
    Decidable (FatalCall env c) :=
  inferInstanceAs (Decidable (_ ∧ _))

/-- The outcome of looking the tool up, parsing the arguments and invoking
it, when all of that succeeds. -/
def callOutcome (env : ToolCallEnv α) (c : ProviderToolCall) : Option ToolOutcome :=
  (env.tools c.name).bind (fun tool => (env.jsonLoads c.arguments).map tool)

/-- The provider tool call described by a streamed buffer entry. -/
def callOfBuffer (e : Nat × ToolCallBuffer) : ProviderToolCall :=
  ⟨e.2.id, e.2.name, e.2.arguments⟩

/-- The entries appended for a run of tool calls that all hit the
unknown-tool path. -/
def unavailEntries : List ProviderToolCall → List LedgerEntry
  | [] => []
  | c :: cs =>
    paramsEntry c ::
    .toolResult ⟨c.id, .text ("Tool " ++ c.name ++ " not available")⟩ ::
    unavailEntries cs

/-- The entries appended for a run of tool calls that all raise
`ToolCallError`. -/
def errorEntries : List ProviderToolCall → List LedgerEntry
  | [] => []
  | c :: cs =>
    paramsEntry c ::
    .toolResult ⟨c.id, .text ("Error executing tool " ++ c.name)⟩ ::
    errorEntries cs

/-- Total number of tool calls across a run of turns. -/
def countCalls : List ProviderTurn → Nat
  | [] => 0
  | t :: ts => t.tool_calls.length + countCalls ts

/-- The function-name text a streamed tool-call delta contributes. -/
def nameDeltaOf (d : FragToolCallDelta) : String :=
  match d.function with
  | some f => f.name.getD ""
  | none => ""

/-- The arguments text a streamed tool-call delta contributes. -/
def argsDeltaOf (d : FragToolCallDelta) : String :=
  match d.function with
  | some f => f.arguments.getD ""
  | none => ""

/-- Concatenation of the name deltas of a fragment run, in arrival order. -/
def joinNames : List FragToolCallDelta → String
  | [] => ""
  | d :: ds => nameDeltaOf d ++ joinNames ds

/-- Concatenation of the arguments deltas of a fragment run, in arrival
order. -/
def joinArgs : List FragToolCallDelta → String
  | [] => ""
  | d :: ds => argsDeltaOf d ++ joinArgs ds

/-- The id the buffer ends up with: the id of the first delta seen at the
index, defaulted to `""` — later id deltas are ignored by the code. -/
def headIdOf : List FragToolCallDelta → String
  | [] => ""
  | d :: _ => d.id.getD ""

/-! ## Concrete instances used by witnesses and counterexamples -/

/-- A concrete environment over trivial parsed arguments: tool `f` returns
the string `res`, tool `g` raises `ToolCallError`, everything else is
unavailable; the argument text `oops` does not parse as JSON (as with
Python's `json.loads`), all other texts do. -/
def exEnv : ToolCallEnv Unit :=
  { tools := fun n =>
      if n = "f" then some (fun _ => .ok (.asStr "res"))
      else if n = "g" then some (fun _ => .toolCallError)
      else none
    jsonLoads := fun s => if s = "oops" then none else some () }

/-- A scripted provider turn with the given tool calls. -/
def turnWith (cs : List ProviderToolCall) : ProviderTurn :=
  { id := "t1", content := some "hi", refusal := none, tool_calls := cs
    finish_reason := some .tool_calls, usage := none }

/-- A scripted final provider turn with no tool calls. -/
def stopTurn : ProviderTurn :=
  { id := "t2", content := some "done", refusal := none, tool_calls := []
    finish_reason := some .stop, usage := none }

/-- A streamed turn consisting of one fragment that carries the given
tool-call deltas and a `tool_calls` finish reason. -/
def fragTurn (ds : List FragToolCallDelta) : List ProviderFragment :=
  [{ id := "s1", choice := some ⟨⟨none, ds⟩, some .tool_calls⟩, usage := none }]

/-- The streaming-reassembly example of the specification: four fragments
at index 0 splitting the name `get_weather` and the arguments
`{"city":"NYC"}`. -/
def exampleDeltas : List FragToolCallDelta :=
  [ ⟨0, none, some ⟨some "get_", none⟩⟩
  , ⟨0, none, some ⟨some "weather", none⟩⟩
  , ⟨0, none, some ⟨none, some "\x7b\"city\":"⟩⟩
  , ⟨0, none, some ⟨none, some "\"NYC\"\x7d"⟩⟩ ]

/-- A delta run refuting id accumulation: the first fragment at index 0
carries no id, the second carries id `call_1`. -/
def lateIdDeltas : List FragToolCallDelta :=
  [⟨0, none, some ⟨some "f", none⟩⟩, ⟨0, some "call_1", none⟩]

/-- A concrete tool-call request ledger entry. -/
def pEx : ToolCallsParams := ⟨"c1", ⟨"f", "\x7b\x7d"⟩⟩

/-- A concrete tool-result ledger entry. -/
def rEx : ToolCalls := ⟨"c1", .text "r"⟩

/-- The `Literal["celsius", "fahrenheit"]` annotation type. -/
def celsiusLit : PyType := .literalOf (.str "celsius") [.str "fahrenheit"]

/-- The parameter schema the claim expects for `celsiusLit`. -/
def celsiusSchema : PropertySchema :=
  { type := .string, enum := some [.str "celsius", .str "fahrenheit"] }

/-! # Theorems -/

/-! ## Engine lemmas -/

theorem except_ok_bind {ε A B : Type} (a : A) (f : A → Except ε B) :
    (Except.ok (ε := ε) a >>= f) = f a := rfl

theorem except_error_bind {ε A B : Type} (e : ε) (f : A → Except ε B) :
    (Except.error (α := A) e >>= f) = Except.error e := rfl

theorem except_bind_ok_map {ε A B : Type} (x : Except ε A) (f : A → B) :
    (x >>= fun a => Except.ok (f a)) = x.map f := by cases x <;> rfl

theorem runToolCall_unavailable (env : ToolCallEnv α) (c : ProviderToolCall)
    (h : (env.tools c.name).isNone = true) :
    runToolCall env c
      = .ok [paramsEntry c,
             .toolResult ⟨c.id, .text ("Tool " ++ c.name ++ " not available")⟩] := by
  have h' := Option.isNone_iff_eq_none.mp h
  simp [runToolCall, h']

theorem runToolCalls_unavailable (env : ToolCallEnv α) (cs : List ProviderToolCall)
    (h : ∀ c ∈ cs, (env.tools c.name).isNone = true) :
    runToolCalls env cs = .ok (unavailEntries cs) := by
  induction cs with
  | nil => rfl
  | cons c cs ih =>
    have hc := h c (List.mem_cons_self c cs)
    have hrest := ih (fun x hx => h x (List.mem_cons_of_mem c hx))
    simp [runToolCalls, runToolCall_unavailable env c hc, hrest, unavailEntries,
      except_ok_bind]

theorem runToolCall_toolError (env : ToolCallEnv α) (c : ProviderToolCall)
    (h : callOutcome env c = some .toolCallError) :
    runToolCall env c
      = .ok [paramsEntry c,
             .toolResult ⟨c.id, .text ("Error executing tool " ++ c.name)⟩] := by
  cases htool : env.tools c.name with
  | none => simp [callOutcome, htool] at h
  | some tool =>
    cases harg : env.jsonLoads c.arguments with
    | none => simp [callOutcome, htool, harg] at h
    | some a =>
      have hout : tool a = .toolCallError := by
        simpa [callOutcome, htool, harg] using h
      simp [runToolCall, htool, harg, hout, stringifyResult]

theorem runToolCalls_toolError (env : ToolCallEnv α) (cs : List ProviderToolCall)
    (h : ∀ c ∈ cs, callOutcome env c = some .toolCallError) :
    runToolCalls env cs = .ok (errorEntries cs) := by
  induction cs with
  | nil => rfl
  | cons c cs ih =>
    have hc := h c (List.mem_cons_self c cs)
    have hrest := ih (fun x hx => h x (List.mem_cons_of_mem c hx))
    simp [runToolCalls, runToolCall_toolError env c hc, hrest, errorEntries,
      except_ok_bind]

theorem runToolCall_benign (env : ToolCallEnv α) (c : ProviderToolCall)
    (h : BenignCall env c) :
    ∃ es, runToolCall env c = .ok es ∧ es.length = 2 := by
  cases htool : env.tools c.name with
  | none =>
    exact ⟨_, runToolCall_unavailable env c (by simp [htool]), rfl⟩
  | some tool =>
    cases harg : env.jsonLoads c.arguments with
    | none =>
      exfalso
      rcases h with h | ⟨h1, h2⟩
      · simp [htool] at h
      · simp [harg] at h2
    | some a =>
      cases hout : tool a with
      | ok r =>
        exact ⟨[paramsEntry c, .toolResult ⟨c.id, stringifyResult r⟩],
          by simp [runToolCall, htool, harg, hout], rfl⟩
      | toolCallError =>
        exact ⟨[paramsEntry c,
                .toolResult ⟨c.id, stringifyResult (.asStr ("Error executing tool " ++ c.name))⟩],
          by simp [runToolCall, htool, harg, hout], rfl⟩

theorem runToolCalls_benign (env : ToolCallEnv α) (cs : List ProviderToolCall)
    (h : ∀ c ∈ cs, BenignCall env c) :
    ∃ es, runToolCalls env cs = .ok es ∧ es.length = 2 * cs.length := by
  induction cs with
  | nil => exact ⟨[], rfl, rfl⟩
  | cons c cs ih =>
    obtain ⟨e1, he1, hl1⟩ := runToolCall_benign env c (h c (List.mem_cons_self c cs))
    obtain ⟨e2, he2, hl2⟩ := ih (fun x hx => h x (List.mem_cons_of_mem c hx))
    refine ⟨e1 ++ e2, by simp [runToolCalls, he1, he2, except_ok_bind], ?_⟩
    simp [List.length_append, hl1, hl2]
    omega

theorem runToolCall_fatal (env : ToolCallEnv α) (c : ProviderToolCall)
    (h : FatalCall env c) :
    runToolCall env c = .error (.jsonDecode c.arguments) := by
  obtain ⟨h1, h2⟩ := h
  rcases Option.isSome_iff_exists.mp h1 with ⟨tool, htool⟩
  simp [runToolCall, htool, h2]

theorem runToolCalls_fatal (env : ToolCallEnv α) (pre : List ProviderToolCall)
    (c : ProviderToolCall) (post : List ProviderToolCall)
    (hpre : ∀ b ∈ pre, BenignCall env b) (hc : FatalCall env c) :
    runToolCalls env (pre ++ c :: post) = .error (.jsonDecode c.arguments) := by
  induction pre with
  | nil => simp [runToolCalls, runToolCall_fatal env c hc, except_error_bind]
  | cons b bs ih =>
    obtain ⟨es, hes, _⟩ := runToolCall_benign env b (hpre b (List.mem_cons_self b bs))
    have hrest := ih (fun x hx => hpre x (List.mem_cons_of_mem b hx))
    simp only [runToolCalls, List.cons_append, List.append_eq, hes, hrest,
      except_ok_bind, except_error_bind]

theorem syncCompleteLoop_step (env : ToolCallEnv α) (cid : Option String)
    (mdl : String) (msgs : List LedgerEntry) (it : Nat) (turn : ProviderTurn)
    (rest : List ProviderTurn) (es : List LedgerEntry)
    (hne : turn.tool_calls ≠ [])
    (hrun : runToolCalls env turn.tool_calls = .ok es) :
    syncCompleteLoop env cid mdl msgs it (turn :: rest)
      = syncCompleteLoop env cid mdl (msgs ++ [assistantEntry turn] ++ es)
          (it + 1) rest := by
  have hfalse : turn.tool_calls.isEmpty = false := by
    cases hcc : turn.tool_calls with
    | nil => exact absurd hcc hne
    | cons x xs => rfl
  simp [syncCompleteLoop, hfalse, hrun, except_ok_bind, except_error_bind]

theorem syncCompleteLoop_step_error (env : ToolCallEnv α) (cid : Option String)
    (mdl : String) (msgs : List LedgerEntry) (it : Nat) (turn : ProviderTurn)
    (rest : List ProviderTurn) (err : EngineError)
    (hne : turn.tool_calls ≠ [])
    (hrun : runToolCalls env turn.tool_calls = .error err) :
    syncCompleteLoop env cid mdl msgs it (turn :: rest) = .error err := by
  have hfalse : turn.tool_calls.isEmpty = false := by
    cases hcc : turn.tool_calls with
    | nil => exact absurd hcc hne
    | cons x xs => rfl
  simp [syncCompleteLoop, hfalse, hrun, except_ok_bind, except_error_bind]

theorem syncCompleteLoop_final (env : ToolCallEnv α) (cid : Option String)
    (mdl : String) (msgs : List LedgerEntry) (it : Nat) (turn : ProviderTurn)
    (rest : List ProviderTurn) (hfin : turn.tool_calls = []) :
    syncCompleteLoop env cid mdl msgs it (turn :: rest)
      = .ok
        { ledger := msgs ++ [assistantEntry turn]
          iterations := it + 1
          completion :=
            { id := cid.getD turn.id
              message :=
                { content := turn.content, refusal := turn.refusal, reason := none }
              finish_reason := mapFinishReason turn.finish_reason
              created := 0
              model := mdl
              usage := turn.usage } } := by
  simp [syncCompleteLoop, hfin]

theorem syncLoop_runs (env : ToolCallEnv α) (cid : Option String) (mdl : String)
    (pre : List ProviderTurn) :
    ∀ (msgs : List LedgerEntry) (it : Nat) (final : ProviderTurn)
      (rest : List ProviderTurn),
    (∀ t ∈ pre, t.tool_calls ≠ [] ∧ ∀ c ∈ t.tool_calls, BenignCall env c) →
    final.tool_calls = [] →
    ∃ out, syncCompleteLoop env cid mdl msgs it (pre ++ final :: rest) = .ok out
      ∧ out.iterations = it + pre.length + 1
      ∧ out.ledger.length = msgs.length + (pre.length + 1) + 2 * countCalls pre := by
  induction pre with
  | nil =>
    intro msgs it final rest _ hfin
    refine ⟨_, syncCompleteLoop_final env cid mdl msgs it final rest hfin, by simp, ?_⟩
    simp [countCalls]
  | cons t ts ih =>
    intro msgs it final rest hpre hfin
    obtain ⟨hne, hben⟩ := hpre t (List.mem_cons_self t ts)
    obtain ⟨es, hes, hlen⟩ := runToolCalls_benign env t.tool_calls hben
    rw [List.cons_append,
      syncCompleteLoop_step env cid mdl msgs it t (ts ++ final :: rest) es hne hes]
    obtain ⟨out, hout, hit, hlg⟩ :=
      ih (msgs ++ [assistantEntry t] ++ es) (it + 1) final rest
        (fun x hx => hpre x (List.mem_cons_of_mem t hx)) hfin
    refine ⟨out, hout, ?_, ?_⟩
    · simp only [List.length_cons]
      omega
    · simp only [List.length_append, List.length_cons, List.length_nil, hlen,
        countCalls] at hlg ⊢
      omega

theorem streamBufferedCall_eq_runToolCall (env : ToolCallEnv α)
    (e : Nat × ToolCallBuffer) :
    streamBufferedCall env e = runToolCall env (callOfBuffer e) := rfl

theorem streamBufferedCalls_eq_runToolCalls (env : ToolCallEnv α)
    (es : List (Nat × ToolCallBuffer)) :
    streamBufferedCalls env es = runToolCalls env (es.map callOfBuffer) := by
  induction es with
  | nil => rfl
  | cons e es ih =>
    simp [streamBufferedCalls, runToolCalls,
      streamBufferedCall_eq_runToolCall env e, ih]

theorem streamCompleteLoop_step (env : ToolCallEnv α) (cid : Option String)
    (mdl : String) (msgs : List LedgerEntry) (frags : List ProviderFragment)
    (rest : List (List ProviderFragment)) (es : List LedgerEntry)
    (hhas : (processFragments cid mdl initAccum frags).hasToolCalls = true)
    (hne : (processFragments cid mdl initAccum frags).buffer ≠ [])
    (hrun : streamBufferedCalls env (processFragments cid mdl initAccum frags).buffer
      = .ok es) :
    streamCompleteLoop env cid mdl msgs (frags :: rest)
      = (streamCompleteLoop env cid mdl
          (msgs ++ [.msg ⟨.assistant, (processFragments cid mdl initAccum frags).contentBuffer⟩]
            ++ es) rest).map
        (fun out => ((processFragments cid mdl initAccum frags).chunks ++ out.1, out.2)) := by
  have hfalse : (processFragments cid mdl initAccum frags).buffer.isEmpty = false := by
    cases hcc : (processFragments cid mdl initAccum frags).buffer with
    | nil => exact absurd hcc hne
    | cons x xs => rfl
  simp [streamCompleteLoop, hhas, hfalse, hrun, except_ok_bind, except_bind_ok_map]

theorem streamCompleteLoop_step_error (env : ToolCallEnv α) (cid : Option String)
    (mdl : String) (msgs : List LedgerEntry) (frags : List ProviderFragment)
    (rest : List (List ProviderFragment)) (err : EngineError)
    (hhas : (processFragments cid mdl initAccum frags).hasToolCalls = true)
    (hne : (processFragments cid mdl initAccum frags).buffer ≠ [])
    (hrun : streamBufferedCalls env (processFragments cid mdl initAccum frags).buffer
      = .error err) :
    streamCompleteLoop env cid mdl msgs (frags :: rest) = .error err := by
  have hfalse : (processFragments cid mdl initAccum frags).buffer.isEmpty = false := by
    cases hcc : (processFragments cid mdl initAccum frags).buffer with
    | nil => exact absurd hcc hne
    | cons x xs => rfl
  simp [streamCompleteLoop, hhas, hfalse, hrun, except_ok_bind, except_error_bind]

/-! ## C1: shape of the atomic tool loop -/

/-- C1 (amended): for every initial ledger and scripted turn sequence whose
turn `k = pre.length + 1` is the first turn with zero tool calls, provided
every tool call of turns `1..k-1` is benign (its tool is unavailable, or
its argument text parses as JSON), atomic `complete` returns after exactly
`k` round trips and the final ledger length is the initial length plus `k`
assistant messages plus two entries per tool call of turns `1..k-1`.  (The
benignness proviso is forced: an available tool with unparsable arguments
raises out of the loop, see the counterexample.) -/
theorem atomic_loop_shape (env : ToolCallEnv α) (cid : Option String)
    (mdl : String) (msgs0 : List LedgerEntry) (pre : List ProviderTurn)
    (final : ProviderTurn) (rest : List ProviderTurn)
    (hpre : ∀ t ∈ pre, t.tool_calls ≠ [] ∧ ∀ c ∈ t.tool_calls, BenignCall env c)
    (hfin : final.tool_calls = []) :
    ∃ out, syncComplete env cid mdl msgs0 (pre ++ final :: rest) = .ok out
      ∧ out.iterations = pre.length + 1
      ∧ out.ledger.length = msgs0.length + (pre.length + 1) + 2 * countCalls pre := by
  obtain ⟨out, h1, h2, h3⟩ :=
    syncLoop_runs env cid mdl pre msgs0 0 final rest hpre hfin
  exact ⟨out, h1, by omega, h3⟩

/-- C1 witness: one benign tool-call turn (an available tool `f` with
parsable arguments and an unavailable tool `zz`), then a stop turn: the
loop runs 2 round trips and appends 2 assistant messages plus 2 entries
per tool call. -/
theorem atomic_loop_shape_witness :
    (∀ t ∈ [turnWith [⟨"c1", "f", "x"⟩, ⟨"c2", "zz", "y"⟩]],
        t.tool_calls ≠ [] ∧ ∀ c ∈ t.tool_calls, BenignCall exEnv c)
      ∧ stopTurn.tool_calls = []
      ∧ ∃ out,
          syncComplete exEnv none "m" []
              ([turnWith [⟨"c1", "f", "x"⟩, ⟨"c2", "zz", "y"⟩]] ++ stopTurn :: [])
            = .ok out
          ∧ out.iterations = [turnWith [⟨"c1", "f", "x"⟩, ⟨"c2", "zz", "y"⟩]].length + 1
          ∧ out.ledger.length
            = ([] : List LedgerEntry).length
              + ([turnWith [⟨"c1", "f", "x"⟩, ⟨"c2", "zz", "y"⟩]].length + 1)
              + 2 * countCalls [turnWith [⟨"c1", "f", "x"⟩, ⟨"c2", "zz", "y"⟩]] :=
  ⟨by decide, rfl,
   atomic_loop_shape exEnv none "m" [] [turnWith [⟨"c1", "f", "x"⟩, ⟨"c2", "zz", "y"⟩]]
     stopTurn [] (by decide) rfl⟩

/-- C1 counterexample: turn 2 is the first turn with zero tool calls
(`k = 2`), yet atomic `complete` does not return any result after 2 round
trips — turn 1 requests the available tool `f` with the unparsable
argument text `oops`, and the `json.loads` failure (raised outside the
`try` that guards tool invocation) aborts the whole call. -/
theorem atomic_loop_shape_counterexample :
    syncComplete exEnv none "m" [] [turnWith [⟨"c0", "f", "oops"⟩], stopTurn]
        = .error (.jsonDecode "oops")
      ∧ (turnWith [⟨"c0", "f", "oops"⟩]).tool_calls ≠ []
      ∧ stopTurn.tool_calls = []
      ∧ ∀ out, syncComplete exEnv none "m" [] [turnWith [⟨"c0", "f", "oops"⟩], stopTurn]
          ≠ .ok out := by
  refine ⟨rfl, by decide, rfl, fun out h => ?_⟩
  have hrfl : syncComplete exEnv none "m" [] [turnWith [⟨"c0", "f", "oops"⟩], stopTurn]
      = .error (.jsonDecode "oops") := rfl
  rw [hrfl] at h
  exact Except.noConfusion h

/-! ## C2: JSON parse failures are fatal, not recovered -/

/-- C2 (amended): a JSON parse failure on the argument text of a requested
available tool is NOT treated as a tool invocation failure: no error
placeholder is appended — because `json.loads` runs outside the `try` that
catches `ToolCallError`, the parse failure propagates out of `complete` as
a fatal error, in both atomic and streaming modes (earlier calls of the
same turn being benign). -/
theorem json_parse_failure_propagates (env : ToolCallEnv α)
    (cid : Option String) (mdl : String) :
    (∀ (msgs : List LedgerEntry) (it : Nat) (turn : ProviderTurn)
        (rest : List ProviderTurn) (pre : List ProviderToolCall)
        (c : ProviderToolCall) (post : List ProviderToolCall),
        turn.tool_calls = pre ++ c :: post →
        (∀ b ∈ pre, BenignCall env b) →
        FatalCall env c →
        syncCompleteLoop env cid mdl msgs it (turn :: rest)
          = .error (.jsonDecode c.arguments))
    ∧ (∀ (msgs : List LedgerEntry) (frags : List ProviderFragment)
        (rest : List (List ProviderFragment))
        (preB : List (Nat × ToolCallBuffer)) (e : Nat × ToolCallBuffer)
        (postB : List (Nat × ToolCallBuffer)),
        (processFragments cid mdl initAccum frags).buffer = preB ++ e :: postB →
        (processFragments cid mdl initAccum frags).hasToolCalls = true →
        (∀ b ∈ preB, BenignCall env (callOfBuffer b)) →
        FatalCall env (callOfBuffer e) →
        streamCompleteLoop env cid mdl msgs (frags :: rest)
          = .error (.jsonDecode e.2.arguments)) := by
  constructor
  · intro msgs it turn rest pre c post hsplit hben hfat
    have hne : turn.tool_calls ≠ [] := by simp [hsplit]
    have hrun : runToolCalls env turn.tool_calls = .error (.jsonDecode c.arguments) := by
      rw [hsplit]
      exact runToolCalls_fatal env pre c post hben hfat
    exact syncCompleteLoop_step_error env cid mdl msgs it turn rest _ hne hrun
  · intro msgs frags rest preB e postB hsplit hhas hben hfat
    have hne : (processFragments cid mdl initAccum frags).buffer ≠ [] := by
      simp [hsplit]
    have hrun : streamBufferedCalls env (processFragments cid mdl initAccum frags).buffer
        = .error (.jsonDecode e.2.arguments) := by
      rw [streamBufferedCalls_eq_runToolCalls, hsplit, List.map_append, List.map_cons]
      exact runToolCalls_fatal env (preB.map callOfBuffer) (callOfBuffer e)
        (postB.map callOfBuffer)
        (fun b' hb' => by
          rcases List.mem_map.mp hb' with ⟨b, hb, rfl⟩
          exact hben b hb)
        hfat
    exact streamCompleteLoop_step_error env cid mdl msgs frags rest _ hhas hne hrun

/-- C2 witness: in both modes, a turn whose first call is benign
(unavailable tool `zz`) and whose second call requests the available tool
`f` with unparsable text `oops` makes the whole completion error. -/
theorem json_parse_failure_propagates_witness :
    ((turnWith [⟨"c1", "zz", "x"⟩, ⟨"c2", "f", "oops"⟩]).tool_calls
        = [⟨"c1", "zz", "x"⟩] ++ (⟨"c2", "f", "oops"⟩ : ProviderToolCall) :: []
      ∧ (∀ b ∈ ([⟨"c1", "zz", "x"⟩] : List ProviderToolCall), BenignCall exEnv b)
      ∧ FatalCall exEnv ⟨"c2", "f", "oops"⟩
      ∧ syncCompleteLoop exEnv none "m" [] 0
          (turnWith [⟨"c1", "zz", "x"⟩, ⟨"c2", "f", "oops"⟩] :: [])
        = .error (.jsonDecode "oops"))
    ∧ ((processFragments none "m" initAccum
          (fragTurn [⟨0, some "c3", some ⟨some "f", some "oops"⟩⟩])).buffer
        = [] ++ (0, (⟨"c3", "f", "oops"⟩ : ToolCallBuffer)) :: []
      ∧ (processFragments none "m" initAccum
          (fragTurn [⟨0, some "c3", some ⟨some "f", some "oops"⟩⟩])).hasToolCalls = true
      ∧ FatalCall exEnv (callOfBuffer (0, ⟨"c3", "f", "oops"⟩))
      ∧ streamCompleteLoop exEnv none "m" []
          (fragTurn [⟨0, some "c3", some ⟨some "f", some "oops"⟩⟩] :: [])
        = .error (.jsonDecode "oops")) := by
  refine ⟨⟨rfl, by decide, by decide, ?_⟩, ⟨rfl, rfl, by decide, ?_⟩⟩
  · exact (json_parse_failure_propagates exEnv none "m").1 [] 0
      (turnWith [⟨"c1", "zz", "x"⟩, ⟨"c2", "f", "oops"⟩]) []
      [⟨"c1", "zz", "x"⟩] ⟨"c2", "f", "oops"⟩ [] rfl (by decide) (by decide)
  · exact (json_parse_failure_propagates exEnv none "m").2 []
      (fragTurn [⟨0, some "c3", some ⟨some "f", some "oops"⟩⟩]) []
      [] (0, ⟨"c3", "f", "oops"⟩) [] rfl rfl (by decide) (by decide)

/-- C2 counterexample to the claim as stated: a provider turn requests the
available tool `f` with argument text `oops`, which is not valid JSON; in
both atomic and streaming modes `complete` propagates the parse failure as
a fatal error instead of appending an error-placeholder `ToolCallResult`
and continuing. -/
theorem json_parse_failure_counterexample :
    syncComplete exEnv none "m" [] [turnWith [⟨"c4", "f", "oops"⟩], stopTurn]
        = .error (.jsonDecode "oops")
      ∧ streamCompleteLoop exEnv none "m" []
          [fragTurn [⟨0, some "c5", some ⟨some "f", some "oops"⟩⟩]]
        = .error (.jsonDecode "oops") :=
  ⟨rfl, rfl⟩

/-! ## C3: unknown tools degrade gracefully -/

/-- C3: a model turn requesting tool names absent from the tool set never
raises: per call, exactly the request entry and a `ToolCallResult` whose
content is exactly `"Tool {name} not available"` are appended, and the
loop continues with the next round trip — in both atomic and streaming
modes. -/
theorem unknown_tool_graceful (env : ToolCallEnv α) (cid : Option String)
    (mdl : String) :
    (∀ c : ProviderToolCall, (env.tools c.name).isNone = true →
        runToolCall env c
          = .ok [paramsEntry c,
                 .toolResult ⟨c.id, .text ("Tool " ++ c.name ++ " not available")⟩])
    ∧ (∀ (msgs : List LedgerEntry) (it : Nat) (turn : ProviderTurn)
        (rest : List ProviderTurn),
        turn.tool_calls ≠ [] →
        (∀ c ∈ turn.tool_calls, (env.tools c.name).isNone = true) →
        syncCompleteLoop env cid mdl msgs it (turn :: rest)
          = syncCompleteLoop env cid mdl
              (msgs ++ [assistantEntry turn] ++ unavailEntries turn.tool_calls)
              (it + 1) rest)
    ∧ (∀ (msgs : List LedgerEntry) (frags : List ProviderFragment)
        (rest : List (List ProviderFragment)),
        (processFragments cid mdl initAccum frags).hasToolCalls = true →
        (processFragments cid mdl initAccum frags).buffer ≠ [] →
        (∀ e ∈ (processFragments cid mdl initAccum frags).buffer,
          (env.tools e.2.name).isNone = true) →
        streamCompleteLoop env cid mdl msgs (frags :: rest)
          = (streamCompleteLoop env cid mdl
              (msgs
                ++ [.msg ⟨.assistant, (processFragments cid mdl initAccum frags).contentBuffer⟩]
                ++ unavailEntries
                    ((processFragments cid mdl initAccum frags).buffer.map callOfBuffer))
              rest).map
            (fun out =>
              ((processFragments cid mdl initAccum frags).chunks ++ out.1, out.2))) := by
  refine ⟨fun c hc => runToolCall_unavailable env c hc, ?_, ?_⟩
  · intro msgs it turn rest hne hall
    exact syncCompleteLoop_step env cid mdl msgs it turn rest _ hne
      (runToolCalls_unavailable env turn.tool_calls hall)
  · intro msgs frags rest hhas hne hall
    refine streamCompleteLoop_step env cid mdl msgs frags rest _ hhas hne ?_
    rw [streamBufferedCalls_eq_runToolCalls]
    exact runToolCalls_unavailable env _ (fun c' hc' => by
      rcases List.mem_map.mp hc' with ⟨e, he, rfl⟩
      exact hall e he)

/-- C3 witness: tool `zz` is unavailable in `exEnv`; the per-call equation,
the atomic-loop continuation and the streaming-loop continuation at
concrete inputs. -/
theorem unknown_tool_graceful_witness :
    ((exEnv.tools (ProviderToolCall.mk "c6" "zz" "x").name).isNone = true
      ∧ runToolCall exEnv ⟨"c6", "zz", "x"⟩
        = .ok [paramsEntry ⟨"c6", "zz", "x"⟩,
               .toolResult ⟨"c6", .text ("Tool " ++ "zz" ++ " not available")⟩])
    ∧ ((turnWith [⟨"c6", "zz", "x"⟩]).tool_calls ≠ []
      ∧ syncCompleteLoop exEnv none "m" [] 0 (turnWith [⟨"c6", "zz", "x"⟩] :: [stopTurn])
        = syncCompleteLoop exEnv none "m"
            ([] ++ [assistantEntry (turnWith [⟨"c6", "zz", "x"⟩])]
              ++ unavailEntries (turnWith [⟨"c6", "zz", "x"⟩]).tool_calls)
            (0 + 1) [stopTurn])
    ∧ ((processFragments none "m" initAccum
          (fragTurn [⟨0, some "c7", some ⟨some "zz", some "x"⟩⟩])).hasToolCalls = true
      ∧ streamCompleteLoop exEnv none "m" []
          (fragTurn [⟨0, some "c7", some ⟨some "zz", some "x"⟩⟩] :: [[]])
        = (streamCompleteLoop exEnv none "m"
            ([] ++ [.msg ⟨.assistant,
                (processFragments none "m" initAccum
                  (fragTurn [⟨0, some "c7", some ⟨some "zz", some "x"⟩⟩])).contentBuffer⟩]
              ++ unavailEntries
                  ((processFragments none "m" initAccum
                    (fragTurn [⟨0, some "c7", some ⟨some "zz", some "x"⟩⟩])).buffer.map
                    callOfBuffer))
            [[]]).map
          (fun out =>
            ((processFragments none "m" initAccum
                (fragTurn [⟨0, some "c7", some ⟨some "zz", some "x"⟩⟩])).chunks ++ out.1,
             out.2))) := by
  refine ⟨⟨by decide, ?_⟩, ⟨by decide, ?_⟩, ⟨rfl, ?_⟩⟩
  · exact (unknown_tool_graceful exEnv none "m").1 ⟨"c6", "zz", "x"⟩ (by decide)
  · exact (unknown_tool_graceful exEnv none "m").2.1 [] 0
      (turnWith [⟨"c6", "zz", "x"⟩]) [stopTurn] (by decide) (by decide)
  · exact (unknown_tool_graceful exEnv none "m").2.2 []
      (fragTurn [⟨0, some "c7", some ⟨some "zz", some "x"⟩⟩]) [[]] rfl
      (by decide) (by decide)

/-! ## C4: `ToolCallError` degrades gracefully -/

/-- C4: a requested tool whose invocation raises the domain-specific
`ToolCallError` does not abort the completion: per call, the appended
`ToolCallResult` content is exactly `"Error executing tool {name}"`, and
the loop continues with the next round trip — in both atomic and streaming
modes. -/
theorem tool_error_graceful (env : ToolCallEnv α) (cid : Option String)
    (mdl : String) :
    (∀ c : ProviderToolCall, callOutcome env c = some .toolCallError →
        runToolCall env c
          = .ok [paramsEntry c,
                 .toolResult ⟨c.id, .text ("Error executing tool " ++ c.name)⟩])
    ∧ (∀ (msgs : List LedgerEntry) (it : Nat) (turn : ProviderTurn)
        (rest : List ProviderTurn),
        turn.tool_calls ≠ [] →
        (∀ c ∈ turn.tool_calls, callOutcome env c = some .toolCallError) →
        syncCompleteLoop env cid mdl msgs it (turn :: rest)
          = syncCompleteLoop env cid mdl
              (msgs ++ [assistantEntry turn] ++ errorEntries turn.tool_calls)
              (it + 1) rest)
    ∧ (∀ (msgs : List LedgerEntry) (frags : List ProviderFragment)
        (rest : List (List ProviderFragment)),
        (processFragments cid mdl initAccum frags).hasToolCalls = true →
        (processFragments cid mdl initAccum frags).buffer ≠ [] →
        (∀ e ∈ (processFragments cid mdl initAccum frags).buffer,
          callOutcome env (callOfBuffer e) = some .toolCallError) →
        streamCompleteLoop env cid mdl msgs (frags :: rest)
          = (streamCompleteLoop env cid mdl
              (msgs
                ++ [.msg ⟨.assistant, (processFragments cid mdl initAccum frags).contentBuffer⟩]
                ++ errorEntries
                    ((processFragments cid mdl initAccum frags).buffer.map callOfBuffer))
              rest).map
            (fun out =>
              ((processFragments cid mdl initAccum frags).chunks ++ out.1, out.2))) := by
  refine ⟨fun c hc => runToolCall_toolError env c hc, ?_, ?_⟩
  · intro msgs it turn rest hne hall
    exact syncCompleteLoop_step env cid mdl msgs it turn rest _ hne
      (runToolCalls_toolError env turn.tool_calls hall)
  · intro msgs frags rest hhas hne hall
    refine streamCompleteLoop_step env cid mdl msgs frags rest _ hhas hne ?_
    rw [streamBufferedCalls_eq_runToolCalls]
    exact runToolCalls_toolError env _ (fun c' hc' => by
      rcases List.mem_map.mp hc' with ⟨e, he, rfl⟩
      exact hall e he)

/-- C4 witness: tool `g` of `exEnv` raises `ToolCallError`; the per-call
equation, the atomic-loop continuation and the streaming-loop continuation
at concrete inputs. -/
theorem tool_error_graceful_witness :
    (callOutcome exEnv ⟨"c8", "g", "x"⟩ = some .toolCallError
      ∧ runToolCall exEnv ⟨"c8", "g", "x"⟩
        = .ok [paramsEntry ⟨"c8", "g", "x"⟩,
               .toolResult ⟨"c8", .text ("Error executing tool " ++ "g")⟩])
    ∧ ((turnWith [⟨"c8", "g", "x"⟩]).tool_calls ≠ []
      ∧ syncCompleteLoop exEnv none "m" [] 0 (turnWith [⟨"c8", "g", "x"⟩] :: [stopTurn])
        = syncCompleteLoop exEnv none "m"
            ([] ++ [assistantEntry (turnWith [⟨"c8", "g", "x"⟩])]
              ++ errorEntries (turnWith [⟨"c8", "g", "x"⟩]).tool_calls)
            (0 + 1) [stopTurn])
    ∧ ((processFragments none "m" initAccum
          (fragTurn [⟨0, some "c9", some ⟨some "g", some "x"⟩⟩])).hasToolCalls = true
      ∧ streamCompleteLoop exEnv none "m" []
          (fragTurn [⟨0, some "c9", some ⟨some "g", some "x"⟩⟩] :: [[]])
        = (streamCompleteLoop exEnv none "m"
            ([] ++ [.msg ⟨.assistant,
                (processFragments none "m" initAccum
                  (fragTurn [⟨0, some "c9", some ⟨some "g", some "x"⟩⟩])).contentBuffer⟩]
              ++ errorEntries
                  ((processFragments none "m" initAccum
                    (fragTurn [⟨0, some "c9", some ⟨some "g", some "x"⟩⟩])).buffer.map
                    callOfBuffer))
            [[]]).map
          (fun out =>
            ((processFragments none "m" initAccum
                (fragTurn [⟨0, some "c9", some ⟨some "g", some "x"⟩⟩])).chunks ++ out.1,
             out.2))) := by
  refine ⟨⟨by decide, ?_⟩, ⟨by decide, ?_⟩, ⟨rfl, ?_⟩⟩
  · exact (tool_error_graceful exEnv none "m").1 ⟨"c8", "g", "x"⟩ (by decide)
  · exact (tool_error_graceful exEnv none "m").2.1 [] 0
      (turnWith [⟨"c8", "g", "x"⟩]) [stopTurn] (by decide) (by decide)
  · exact (tool_error_graceful exEnv none "m").2.2 []
      (fragTurn [⟨0, some "c9", some ⟨some "g", some "x"⟩⟩]) [[]] rfl
      (by decide) (by decide)

/-! ## C5: ledger-to-wire serialization -/

theorem buildMsgs_concat (es : List LedgerEntry) (e : LedgerEntry) :
    buildMsgs (es ++ [e]) = buildStep (buildMsgs es) e := by
  simp [buildMsgs, List.foldl_append]

/-- C5: when the ledger is serialized to wire messages, a `ToolCallRequest`
entry attaches its wire record to the last built wire message when that one
has assistant role, and otherwise opens a new assistant wire message whose
only payload is the record (no text content); consecutive requests after an
assistant message therefore merge into one assistant wire message; and
every `ToolCallResult` entry becomes a tool-role wire message tagged with
its call id. -/
theorem ledger_wire_serialization (es : List LedgerEntry) (p : ToolCallsParams)
    (r : ToolCalls) :
    (∀ c tcs, (buildMsgs es).getLast? = some (.assistant c tcs) →
        buildMsgs (es ++ [.toolParams p])
          = (buildMsgs es).dropLast ++ [.assistant c (tcs ++ [wireCallOf p])])
      ∧ ((∀ c tcs, (buildMsgs es).getLast? ≠ some (.assistant c tcs)) →
        buildMsgs (es ++ [.toolParams p])
          = buildMsgs es ++ [.assistant none [wireCallOf p]])
      ∧ buildMsgs (es ++ [.toolResult r])
        = buildMsgs es ++ [.tool (strOfContent r.content) r.call_id]
      ∧ (∀ (s : String) (q : ToolCallsParams),
        buildMsgs (es ++ [.msg ⟨.assistant, s⟩, .toolParams p, .toolParams q])
          = buildMsgs es ++ [.assistant (some s) [wireCallOf p, wireCallOf q]]) := by
  refine ⟨?_, ?_, ?_, ?_⟩
  · intro c tcs h
    rw [buildMsgs_concat]
    simp [buildStep, h]
  · intro h
    rw [buildMsgs_concat]
    cases hl : (buildMsgs es).getLast? with
    | none => simp [buildStep, hl]
    | some w =>
      cases w with
      | system s => simp [buildStep, hl]
      | user s => simp [buildStep, hl]
      | assistant c tcs => exact absurd hl (h c tcs)
      | tool s cid => simp [buildStep, hl]
  · rw [buildMsgs_concat]
    rfl
  · intro s q
    have h1 : es ++ [LedgerEntry.msg ⟨.assistant, s⟩, .toolParams p, .toolParams q]
        = ((es ++ [.msg ⟨.assistant, s⟩]) ++ [.toolParams p]) ++ [.toolParams q] := by
      simp
    rw [h1]
    simp only [buildMsgs_concat]
    simp [buildStep, List.getLast?_concat, List.dropLast_concat]

/-- C5 witness: the three serialization clauses at concrete ledgers — a
request after an assistant message attaches to it, a request after a user
message opens a bare assistant wire message, a result becomes a tool-role
wire message. -/
theorem ledger_wire_serialization_witness :
    buildMsgs ([LedgerEntry.msg ⟨.assistant, "a"⟩] ++ [.toolParams pEx])
        = [.assistant (some "a") [wireCallOf pEx]]
      ∧ buildMsgs ([LedgerEntry.msg ⟨.user, "u"⟩] ++ [.toolParams pEx])
        = [.user "u", .assistant none [wireCallOf pEx]]
      ∧ buildMsgs (([] : List LedgerEntry) ++ [.toolResult rEx])
        = [.tool (strOfContent rEx.content) rEx.call_id]
      ∧ buildMsgs (([] : List LedgerEntry)
            ++ [.msg ⟨.assistant, "a"⟩, .toolParams pEx, .toolParams pEx])
        = [.assistant (some "a") [wireCallOf pEx, wireCallOf pEx]] := by
  refine ⟨?_, ?_, ?_, ?_⟩
  · have h := (ledger_wire_serialization [.msg ⟨.assistant, "a"⟩] pEx rEx).1
      (some "a") [] rfl
    simpa using h
  · have h := (ledger_wire_serialization [.msg ⟨.user, "u"⟩] pEx rEx).2.1
      (fun c tcs hcontra => by simp [buildMsgs, buildStep] at hcontra)
    simpa using h
  · exact (ledger_wire_serialization [] pEx rEx).2.2.1
  · have h := (ledger_wire_serialization [] pEx rEx).2.2.2 "a" pEx
    simpa using h

/-! ## C6: streaming tool-call reassembly -/

theorem bufUpdateFields_spec (b : ToolCallBuffer) (d : FragToolCallDelta) :
    bufUpdateFields b d
      = { b with
          name := b.name ++ nameDeltaOf d
          arguments := b.arguments ++ argsDeltaOf d } := by
  obtain ⟨idx, oid, fn⟩ := d
  cases fn with
  | none => simp [bufUpdateFields, nameDeltaOf, argsDeltaOf, String.append_empty]
  | some f =>
    obtain ⟨nm, ar⟩ := f
    cases nm with
    | none =>
      cases ar with
      | none => simp [bufUpdateFields, nameDeltaOf, argsDeltaOf, String.append_empty]
      | some a =>
        by_cases ha : a = "" <;>
          simp [bufUpdateFields, nameDeltaOf, argsDeltaOf, ha, String.append_empty]
    | some n =>
      cases ar with
      | none =>
        by_cases hn : n = "" <;>
          simp [bufUpdateFields, nameDeltaOf, argsDeltaOf, hn, String.append_empty]
      | some a =>
        by_cases hn : n = "" <;> by_cases ha : a = "" <;>
          simp [bufUpdateFields, nameDeltaOf, argsDeltaOf, hn, ha, String.append_empty]

theorem foldl_singleton_buffer (i : Nat) (ds : List FragToolCallDelta)
    (h : ∀ d ∈ ds, d.index = i) :
    ∀ b : ToolCallBuffer,
    List.foldl updateBuffer [(i, b)] ds
      = [(i, { b with
               name := b.name ++ joinNames ds
               arguments := b.arguments ++ joinArgs ds })] := by
  induction ds with
  | nil => intro b; simp [joinNames, joinArgs, String.append_empty]
  | cons d tl ih =>
    intro b
    have hd : d.index = i := h d (List.mem_cons_self d tl)
    have hstep : updateBuffer [(i, b)] d = [(i, bufUpdateFields b d)] := by
      simp [updateBuffer, lookupIdx, hd, setIdx]
    rw [List.foldl_cons, hstep, bufUpdateFields_spec,
      ih (fun x hx => h x (List.mem_cons_of_mem d hx))]
    simp [joinNames, joinArgs, String.append_assoc]

/-- C6 (amended): streamed tool-call fragments sharing one positional index
are reassembled into a single buffered request whose function name and
arguments are the concatenations of the name deltas and arguments deltas in
arrival order, and whose id is the id of the FIRST fragment at that index
(empty when absent there) — ids are not accumulated across fragments; in
particular, the four example fragments reassemble to function name
`get_weather` and arguments `{"city":"NYC"}`. -/
theorem stream_reassembly (i : Nat) (ds : List FragToolCallDelta)
    (hidx : ∀ d ∈ ds, d.index = i) (hne : ds ≠ []) :
    assembleToolCalls ds = [(i, ⟨headIdOf ds, joinNames ds, joinArgs ds⟩)]
      ∧ assembleToolCalls exampleDeltas
        = [(0, ⟨"", "get_weather", "\x7b\"city\":\"NYC\"\x7d"⟩)] := by
  constructor
  · cases ds with
    | nil => exact absurd rfl hne
    | cons d tl =>
      have hd : d.index = i := hidx d (List.mem_cons_self d tl)
      have hfirst : updateBuffer [] d
          = [(d.index, bufUpdateFields ⟨d.id.getD "", "", ""⟩ d)] := by
        simp [updateBuffer, lookupIdx]
      simp only [assembleToolCalls, List.foldl_cons]
      rw [hfirst, hd, bufUpdateFields_spec,
        foldl_singleton_buffer i tl (fun x hx => hidx x (List.mem_cons_of_mem d hx))]
      simp [headIdOf, joinNames, joinArgs, String.empty_append]
  · rfl

/-- C6 witness: the reassembly theorem applied to the specification's
example fragment run. -/
theorem stream_reassembly_witness :
    (∀ d ∈ exampleDeltas, d.index = 0)
      ∧ exampleDeltas ≠ []
      ∧ assembleToolCalls exampleDeltas
        = [(0, ⟨headIdOf exampleDeltas, joinNames exampleDeltas, joinArgs exampleDeltas⟩)] :=
  ⟨by decide, by decide,
   (stream_reassembly 0 exampleDeltas (by decide) (by decide)).1⟩

/-- C6 counterexample to the claim as stated: the id is not accumulated
across fragments of one index — with the first fragment at index 0
carrying no id and a later fragment carrying id `call_1`, the reassembled
request's id is `""`, not `"call_1"`. -/
theorem stream_reassembly_counterexample :
    assembleToolCalls lateIdDeltas = [(0, ⟨"", "f", ""⟩)]
      ∧ lateIdDeltas.map (fun d => d.id) = [none, some "call_1"]
      ∧ ("" : String) ≠ "call_1" :=
  ⟨rfl, rfl, by decide⟩

/-! ## C7 / C9: lazy stream replay -/

/-- C7: a fully consumed `AsyncStream`, iterated a second time, replays
exactly the items of the first iteration in order, leaves the stream state
untouched, and never re-invokes the producer: the producer-invocation
counter is `1` after both the first and the second full iteration. -/
theorem asyncStream_replay_idempotent {V T : Type} (src : List V) (m : V → T) :
    (aiter (aiter (mkAsyncStream src m) none).2 none).1
        = (aiter (mkAsyncStream src m) none).1
      ∧ (aiter (aiter (mkAsyncStream src m) none).2 none).2
        = (aiter (mkAsyncStream src m) none).2
      ∧ (aiter (mkAsyncStream src m) none).1 = src.map m
      ∧ (aiter (mkAsyncStream src m) none).2.source_runs = 1
      ∧ (aiter (aiter (mkAsyncStream src m) none).2 none).2.source_runs = 1 :=
  ⟨rfl, rfl, rfl, rfl, rfl⟩

/-- C9: a first iteration abandoned after `k` of the producer's items
caches exactly those `k` items; every later iteration replays the `k`
cached items with the state unchanged (so no later iteration can resume
the producer), the producer was run once, and the cached items are
strictly fewer than the producer would have yielded. -/
theorem asyncStream_abandoned_first_pass {V T : Type} (src : List V) (m : V → T)
    (k : Nat) (h : k < src.length) :
    (aiter (mkAsyncStream src m) (some k)).1 = (src.take k).map m
      ∧ (aiter (mkAsyncStream src m) (some k)).1.length = k
      ∧ aiter (aiter (mkAsyncStream src m) (some k)).2 none
        = ((aiter (mkAsyncStream src m) (some k)).1,
           (aiter (mkAsyncStream src m) (some k)).2)
      ∧ (∀ d, (aiter (aiter (mkAsyncStream src m) (some k)).2 d).2
          = (aiter (mkAsyncStream src m) (some k)).2)
      ∧ (aiter (mkAsyncStream src m) (some k)).2.source_runs = 1
      ∧ (aiter (mkAsyncStream src m) (some k)).1.length < src.length := by
  have hlen : ((src.take k).map m).length = k := by
    simp [List.length_take, Nat.min_eq_left (Nat.le_of_lt h)]
  refine ⟨rfl, hlen, rfl, fun d => rfl, rfl, ?_⟩
  show ((src.take k).map m).length < src.length
  omega

/-- C9 witness: the abandoned-first-pass theorem at the concrete producer
`["a", "b", "c"]` with the first iteration abandoned after one item. -/
theorem asyncStream_abandoned_first_pass_witness :
    1 < (["a", "b", "c"] : List String).length
      ∧ ((aiter (mkAsyncStream (["a", "b", "c"] : List String) id) (some 1)).1
          = (["a", "b", "c"].take 1).map id
        ∧ (aiter (mkAsyncStream (["a", "b", "c"] : List String) id) (some 1)).1.length = 1
        ∧ aiter (aiter (mkAsyncStream (["a", "b", "c"] : List String) id) (some 1)).2 none
          = ((aiter (mkAsyncStream (["a", "b", "c"] : List String) id) (some 1)).1,
             (aiter (mkAsyncStream (["a", "b", "c"] : List String) id) (some 1)).2)
        ∧ (∀ d, (aiter (aiter (mkAsyncStream (["a", "b", "c"] : List String) id) (some 1)).2 d).2
            = (aiter (mkAsyncStream (["a", "b", "c"] : List String) id) (some 1)).2)
        ∧ (aiter (mkAsyncStream (["a", "b", "c"] : List String) id) (some 1)).2.source_runs = 1
        ∧ (aiter (mkAsyncStream (["a", "b", "c"] : List String) id) (some 1)).1.length
          < (["a", "b", "c"] : List String).length) :=
  ⟨by decide, asyncStream_abandoned_first_pass ["a", "b", "c"] id 1 (by decide)⟩

/-! ## C8: schema derivation for a string literal parameter -/

/-- C8: a parameter annotated `Literal["celsius", "fahrenheit"]` with no
`Property` override (bare, or `Annotated` without a `Property`) derives the
parameter schema whose only populated fields are `type = "string"` and
`enum = ["celsius", "fahrenheit"]`, whose `model_dump(exclude_none=True)`
rendering is exactly `{"type": "string", "enum": ["celsius",
"fahrenheit"]}`, and a tool parameter so annotated without a default is
required. -/
theorem literal_param_schema_derivation :
    buildPropertySchema (.plain celsiusLit) = celsiusSchema
      ∧ buildPropertySchema (.withMeta celsiusLit [.otherMeta]) = celsiusSchema
      ∧ dumpPropertySchema celsiusSchema
        = [("type", .tyName .string),
           ("enum", .jsonList [.str "celsius", .str "fahrenheit"])]
      ∧ buildParamSchemas
          [⟨"self", .plain (.otherType "Self"), none⟩,
           ⟨"unit", .plain celsiusLit, none⟩]
        = ([("unit", buildPropertySchema (.plain celsiusLit))], ["unit"]) := by
  refine ⟨?_, ?_, ?_, ?_⟩
  · simp [buildPropertySchema, extractProperty, celsiusLit, celsiusSchema,
      getJsonSchemaType, getLiteralEnumValues, getArrayItemsSchema, litToJson]
  · simp [buildPropertySchema, extractProperty, celsiusLit, celsiusSchema,
      getJsonSchemaType, getLiteralEnumValues, getArrayItemsSchema, litToJson,
      List.find?]
  · simp [dumpPropertySchema, celsiusSchema]
  · simp [buildParamSchemas]

/-! ## C10: `from_raws` bypasses the structural validator -/

/-- C10: `Messages.from_raws` is total (never raises) and yields exactly
one system message carrying the prompt followed by the raw messages in
order with role and content preserved; the structural validator does not
run on this path, so structurally invalid sequences — e.g. an empty raw
list (no trailing user message) or two consecutive user messages — are
built without error even though `validate_messages` (and hence the
validated construction `mkMessages`) rejects them. -/
theorem fromRaws_bypasses_validation (raws : List RawMsg) (p : String) :
    fromRaws raws p = ⟨.system, p⟩ :: raws.map (fun m => ⟨m.role, m.content⟩)
      ∧ validateMessages (fromRaws [] p) = .error "Last message must be from 'user'"
      ∧ validateMessages (fromRaws [⟨.user, "a", none⟩, ⟨.user, "b", none⟩] p)
        = .error "Messages must alternate between 'user' and 'assistant'"
      ∧ mkMessages (fromRaws [] p) = .error "Last message must be from 'user'" :=
  ⟨rfl, rfl, rfl, rfl⟩

end PersonaX
